import Mathlib

/-!
# IntelliBase frontend — verification of the claimed properties

Shallow embedding of the IntelliBase frontend sources (React/TSX) into Lean.
JavaScript strings are modelled as `List Char`; JS `trim`, `replace`,
`match`, `includes`, `startsWith` are modelled as executable functions on
character lists.  Stateful components are modelled as explicit state records
with transition functions; the outcome of an awaited API call is passed to a
transition as an explicit parameter.
-/

set_option maxRecDepth 10000

/-! ## Generic character-list helpers (JS string primitives) -/

/-- Whitespace as recognised by JS `trim` / `\s` (ASCII subset; the Unicode
space characters are irrelevant to the markers and literals in this code). -/
def isJsWs (c : Char) : Bool :=
  c == ' ' || c == '\t' || c == '\n' || c == '\r' || c == '\x0b' || c == '\x0c'

/-- JS `String.prototype.trim`: drop whitespace from both ends. -/
def jsTrim (l : List Char) : List Char :=
  ((l.dropWhile isJsWs).reverse.dropWhile isJsWs).reverse

/-- `leadsWith pat s` is true when `pat` is a prefix of `s`
(JS `startsWith`, case sensitive). -/
def leadsWith : List Char → List Char → Bool
  | [], _ => true
  | _ :: _, [] => false
  | p :: ps, c :: cs => p == c && leadsWith ps cs

/-- Split `s` at the first (leftmost) occurrence of `pat`:
`splitFirst pat s = some (a, b)` when `s = a ++ pat ++ b` and no occurrence
of `pat` begins earlier than `a.length` (JS `indexOf` semantics). -/
def splitFirst (pat : List Char) : List Char → Option (List Char × List Char)
  | [] => if leadsWith pat [] then some ([], []) else none
  | c :: cs =>
    if leadsWith pat (c :: cs) then some ([], (c :: cs).drop pat.length)
    else
      match splitFirst pat cs with
      | some (a, b) => some (c :: a, b)
      | none => none

/-- JS `String.prototype.includes`. -/
def containsSub (pat s : List Char) : Bool := (splitFirst pat s).isSome

theorem leadsWith_iff_take (pat : List Char) :
    ∀ s, leadsWith pat s = true ↔ s.take pat.length = pat := by
  induction pat with
  | nil => intro s; simp [leadsWith]
  | cons p ps ih =>
    intro s
    cases s with
    | nil => simp [leadsWith]
    | cons c cs =>
      simp only [leadsWith, List.length_cons, List.take_succ_cons, Bool.and_eq_true,
        beq_iff_eq, List.cons.injEq, ih cs]
      exact ⟨fun h => ⟨h.1.symm, h.2⟩, fun h => ⟨h.1.symm, h.2⟩⟩

theorem leadsWith_append_self (pat r : List Char) :
    leadsWith pat (pat ++ r) = true := by
  rw [leadsWith_iff_take]
  exact (List.take_append_of_le_length (le_refl pat.length)).trans (by simp)

theorem splitFirst_some (pat : List Char) :
    ∀ s a b, splitFirst pat s = some (a, b) → s = a ++ pat ++ b := by
  intro s
  induction s with
  | nil =>
    intro a b h
    simp only [splitFirst] at h
    split at h
    · rename_i hl
      cases pat with
      | nil => simp at h; simp [h.1, h.2]
      | cons p ps => simp [leadsWith] at hl
    · exact absurd h (by simp)
  | cons c cs ih =>
    intro a b h
    simp only [splitFirst] at h
    split at h
    · rename_i hl
      have := (leadsWith_iff_take pat (c :: cs)).mp hl
      simp only [Option.some.injEq, Prod.mk.injEq] at h
      obtain ⟨ha, hb⟩ := h
      subst ha hb
      conv_lhs => rw [← List.take_append_drop pat.length (c :: cs)]
      simp [this]
    · rename_i hl
      cases hsub : splitFirst pat cs with
      | none => simp [hsub] at h
      | some ab =>
        obtain ⟨a', b'⟩ := ab
        simp only [hsub, Option.some.injEq, Prod.mk.injEq] at h
        obtain ⟨ha, hb⟩ := h
        subst ha hb
        simpa using ih a' b' hsub

/-! ## C9 — session-list grouping (src/unnamed/part_001, `groupSessionsByDate`) -/

/-- A chat session as the sidebar sees it (`ChatSession` in part_001);
`created_at` is modelled as a timestamp in milliseconds. -/
structure ChatSession where
  session_id : Nat
  title : List Char
  created_at : Int
  message_count : Nat
deriving DecidableEq

/-- `new Date(t)` truncated to its local-midnight day, modelled as the floor
day index of the timestamp (86400000 ms per day). -/
def dayOf (t : Int) : Int := Int.fdiv t 86400000

/-- The four groups built by `groupSessionsByDate`. -/
structure GroupedSessions where
  today : List ChatSession
  yesterday : List ChatSession
  lastWeek : List ChatSession
  older : List ChatSession
deriving DecidableEq

/-- The `sessions.forEach` body of `groupSessionsByDate`: an if/else-if chain
pushing each session into exactly one group.  Built by right fold so group
order matches the push order of the source. -/
def groupGo (today : Int) : List ChatSession → GroupedSessions
  | [] => ⟨[], [], [], []⟩
  | s :: rest =>
    let g := groupGo today rest
    let d := dayOf s.created_at
    if d = today then { g with today := s :: g.today }
    else if d = today - 1 then { g with yesterday := s :: g.yesterday }
    else if today - 7 ≤ d then { g with lastWeek := s :: g.lastWeek }
    else { g with older := s :: g.older }

/-- `groupSessionsByDate` from part_001: `now` is the current timestamp. -/
def groupSessionsByDate (now : Int) (sessions : List ChatSession) : GroupedSessions :=
  groupGo (dayOf now) sessions

/-- C9: groupSessionsByDate partitions the session list — every session lands
in exactly one of the four groups (counted with multiplicity) and the group
sizes sum to the input length. -/
theorem groupSessionsByDate_partition (now : Int) (sessions : List ChatSession) :
    ((groupSessionsByDate now sessions).today.length
      + (groupSessionsByDate now sessions).yesterday.length
      + (groupSessionsByDate now sessions).lastWeek.length
      + (groupSessionsByDate now sessions).older.length = sessions.length)
    ∧ ∀ s : ChatSession,
        (groupSessionsByDate now sessions).today.count s
          + (groupSessionsByDate now sessions).yesterday.count s
          + (groupSessionsByDate now sessions).lastWeek.count s
          + (groupSessionsByDate now sessions).older.count s
        = sessions.count s := by
  unfold groupSessionsByDate
  induction sessions with
  | nil => simp [groupGo]
  | cons x rest ih =>
    obtain ⟨ihlen, ihcount⟩ := ih
    constructor
    · simp only [groupGo]
      split
      · simpa using by omega
      · split
        · simpa using by omega
        · split
          · simpa using by omega
          · simpa using by omega
    · intro s
      have hc := ihcount s
      simp only [groupGo]
      split
      · simp [List.count_cons, hc]; omega
      · split
        · simp [List.count_cons, hc]; omega
        · split
          · simp [List.count_cons, hc]; omega
          · simp [List.count_cons, hc]; omega

/-! ## C10 — PDF viewer zoom (src/unnamed/part_002, `PDFViewer`) -/

/-- `useState(100)` initial zoom. -/
def initialZoom : Nat := 100

/-- `handleZoomIn`: `setZoom(prev => Math.min(prev + 25, 200))`. -/
def handleZoomIn (z : Nat) : Nat := min (z + 25) 200

/-- `handleZoomOut`: `setZoom(prev => Math.max(prev - 25, 50))`.  JS subtraction
can go negative only from states below 25; on `Nat`, truncated subtraction
followed by `max … 50` gives the same result for every input. -/
def handleZoomOut (z : Nat) : Nat := max (z - 25) 50

inductive ZoomOp where
  | zin
  | zout
deriving DecidableEq

def applyZoom (z : Nat) : ZoomOp → Nat
  | .zin => handleZoomIn z
  | .zout => handleZoomOut z

/-- The zoom value after a sequence of zoom-in/zoom-out clicks. -/
def runZoom (ops : List ZoomOp) : Nat := ops.foldl applyZoom initialZoom

/-- The C10 invariant: zoom within [50, 200] and a multiple of 25. -/
def zoomInv (z : Nat) : Prop := 50 ≤ z ∧ z ≤ 200 ∧ z % 25 = 0

theorem zoomInv_apply {z : Nat} (h : zoomInv z) (op : ZoomOp) : zoomInv (applyZoom z op) := by
  obtain ⟨h1, h2, h3⟩ := h
  cases op <;>
    simp only [applyZoom, handleZoomIn, handleZoomOut, zoomInv, Nat.min_def, Nat.max_def] <;>
    constructor <;> try constructor
  all_goals split <;> omega

/-- C10: every sequence of zoom operations keeps the zoom level in the closed
range [50, 200] and a multiple of 25, starting from 100. -/
theorem runZoom_invariant (ops : List ZoomOp) : zoomInv (runZoom ops) := by
  unfold runZoom
  have h : zoomInv initialZoom := by unfold zoomInv initialZoom; omega
  revert h
  generalize initialZoom = z
  induction ops generalizing z with
  | nil => intro h; simpa using h
  | cons op rest ih =>
    intro h
    exact ih (applyZoom z op) (zoomInv_apply h op)

/-! ## Chat area state machine
(src/frontend/src/components/chat/SessionModeDialog.tsx: `ChatArea`,
`handleSend`, `SessionModeDialog`) -/

/-- The three session modes (`"study" | "research" | "casual"`). -/
inductive Mode where
  | casual
  | study
  | research
deriving DecidableEq

inductive Role where
  | user
  | assistant
deriving DecidableEq

/-- A citation as formatted for display (`{file, page, lines}`). -/
structure Citation where
  file : List Char
  page : Nat
  lines : List Char
deriving DecidableEq

/-- A chat message as kept in the `messages` state (timestamps omitted:
they are wall-clock side data with no bearing on the claims). -/
structure Msg where
  role : Role
  content : List Char
  citations : List Citation
deriving DecidableEq

/-- The `ChatArea` component state. -/
structure ChatState where
  input : List Char
  messages : List Msg
  loading : Bool
  mode : Mode
  modeDialogOpen : Bool
  sessionId : Option Nat
deriving DecidableEq

/-- `useState` initial values of `ChatArea`:
`message = ""`, `messages = []`, `loading = false`,
`sessionMode = "casual"`, `modeDialogOpen = false`, and a null session. -/
def initChatState : ChatState :=
  { input := [], messages := [], loading := false, mode := .casual,
    modeDialogOpen := false, sessionId := none }

/-- The request body of `chatAPI.query` as built in `handleSend`. -/
structure QueryPayload where
  query : List Char
  session_id : Option Nat
  top_k : Nat
  session_mode : Mode
deriving DecidableEq

/-- Resolution of the awaited `chatAPI.query` promise: either a response
(answer, formatted citations, a session id) or a rejection. -/
inductive QueryOutcome where
  | success (answer : List Char) (citations : List Citation) (respSession : Option Nat)
  | failure
deriving DecidableEq

/-- The fallback assistant text appended in the `catch` branch of `handleSend`. -/
def apologyText : List Char :=
  "Sorry, I encountered an error processing your request. Please try again.".data

/-- `handleSend` of `ChatArea`, as one atomic transition given the outcome of
the awaited query.  Returns the next state and the issued request (`none`
when the guard `if (!message.trim() || loading) return` fires). -/
def handleSend (s : ChatState) (o : QueryOutcome) : ChatState × Option QueryPayload :=
  if jsTrim s.input = [] ∨ s.loading = true then (s, none)
  else
    let payload : QueryPayload :=
      { query := s.input, session_id := s.sessionId, top_k := 15, session_mode := s.mode }
    let userMsg : Msg := { role := .user, content := s.input, citations := [] }
    match o with
    | .success answer citations respSession =>
      ({ s with
          input := [],
          messages := s.messages ++ [userMsg,
            { role := .assistant, content := answer, citations := citations }],
          loading := false,
          sessionId := match s.sessionId with
            | some i => some i
            | none => respSession },
        some payload)
    | .failure =>
      ({ s with
          input := [],
          messages := s.messages ++ [userMsg,
            { role := .assistant, content := apologyText, citations := [] }],
          loading := false },
        some payload)

/-- `SessionModeDialog.handleSelect`: report the chosen mode and close. -/
def selectMode (s : ChatState) (m : Mode) : ChatState :=
  { s with mode := m, modeDialogOpen := false }

/-- The `useEffect` watching `[sessionId, messages.length]`: open the mode
dialog when there is no session and no messages. -/
def effectModeDialog (s : ChatState) : ChatState :=
  if s.sessionId = none ∧ s.messages = [] then { s with modeDialogOpen := true } else s

/-- Starting a new chat (`handleNewChat` → `onSessionSelect("")`): the session
id becomes null, the message list is cleared by the session-change effect, and
the mode-dialog effect runs.  All other component state persists. -/
def newChat (s : ChatState) : ChatState :=
  effectModeDialog { s with sessionId := none, messages := [] }

/-- Typing into the textarea (`setMessage`). -/
def setInput (s : ChatState) (t : List Char) : ChatState := { s with input := t }

/-- C4: when the query promise rejects, the turn is still recorded — the user
message is appended and kept, followed by exactly one assistant message with
the apologetic text and an empty citations list. -/
theorem handleSend_failure_records_turn (s : ChatState)
    (hne : jsTrim s.input ≠ []) (hld : s.loading = false) :
    (handleSend s .failure).1.messages
      = s.messages
        ++ [{ role := .user, content := s.input, citations := [] },
            { role := .assistant, content := apologyText, citations := [] }]
    ∧ (handleSend s .failure).2
        = some { query := s.input, session_id := s.sessionId, top_k := 15,
                 session_mode := s.mode } := by
  unfold handleSend
  rw [if_neg]
  · exact ⟨rfl, rfl⟩
  · rintro (h | h)
    · exact hne h
    · rw [hld] at h; cases h

theorem handleSend_failure_records_turn_witness :
    (handleSend (setInput initChatState "hi".data) .failure).1.messages
      = initChatState.messages
        ++ [{ role := .user, content := "hi".data, citations := [] },
            { role := .assistant, content := apologyText, citations := [] }]
    ∧ (handleSend (setInput initChatState "hi".data) .failure).2
        = some { query := "hi".data, session_id := none, top_k := 15,
                 session_mode := .casual } := by
  have h := handleSend_failure_records_turn (setInput initChatState "hi".data)
    (by decide) (by decide)
  exact ⟨h.1, h.2⟩

/-- C5: at most one in-flight query per session — while `loading` is set, or
when the trimmed input is empty, `handleSend` changes nothing and issues no
query; and whenever a send does go through, it appends exactly a
(user, assistant) pair at the tail, preserving message order. -/
theorem handleSend_single_flight :
    (∀ (s : ChatState) (o : QueryOutcome), s.loading = true → handleSend s o = (s, none))
    ∧ (∀ (s : ChatState) (o : QueryOutcome), jsTrim s.input = [] → handleSend s o = (s, none))
    ∧ (∀ (s : ChatState) (o : QueryOutcome),
        (handleSend s o).1.messages = s.messages
        ∨ ∃ asst : Msg,
            (handleSend s o).1.messages
              = s.messages
                ++ [{ role := .user, content := s.input, citations := [] }, asst]) := by
  refine ⟨?_, ?_, ?_⟩
  · intro s o h
    unfold handleSend
    rw [if_pos (Or.inr h)]
  · intro s o h
    unfold handleSend
    rw [if_pos (Or.inl h)]
  · intro s o
    unfold handleSend
    split
    · exact Or.inl rfl
    · cases o with
      | success answer citations respSession =>
        exact Or.inr ⟨{ role := .assistant, content := answer, citations := citations }, rfl⟩
      | failure =>
        exact Or.inr ⟨{ role := .assistant, content := apologyText, citations := [] }, rfl⟩

theorem handleSend_single_flight_witness :
    handleSend { initChatState with loading := true, input := "hi".data } .failure
      = ({ initChatState with loading := true, input := "hi".data }, none)
    ∧ handleSend (setInput initChatState "  ".data) .failure
      = (setInput initChatState "  ".data, none) := by
  exact ⟨handleSend_single_flight.1 _ _ rfl,
    handleSend_single_flight.2.1 _ _ (by decide)⟩

/-! ## C7 — session mode (ChatArea / SessionModeDialog) -/

/-- C7 counterexample: a new chat does not reset the mode to casual.  After the
user picks study mode and then starts a new chat, the state is a fresh chat
(no session, no messages, the selection dialog reopened) whose mode at send
time is still `study`, not `casual`. -/
theorem newChat_mode_not_reset :
    (newChat (selectMode initChatState .study)).sessionId = none
    ∧ (newChat (selectMode initChatState .study)).messages = []
    ∧ (newChat (selectMode initChatState .study)).modeDialogOpen = true
    ∧ (newChat (selectMode initChatState .study)).mode = .study
    ∧ Mode.study ≠ Mode.casual := by
  refine ⟨rfl, rfl, rfl, rfl, by decide⟩

/-- C7 (amended): every issued query carries one of exactly the three modes,
namely the mode selected at send time; the chat area's mode state initialises
to `casual`; the mode-selection dialog opens whenever there is no session and
no messages; the mode is changeable per turn and the next send carries the new
mode; but starting a new chat preserves the previously selected mode. -/
theorem sessionMode_policy :
    (∀ (s : ChatState) (o : QueryOutcome) (st : ChatState) (p : QueryPayload),
        handleSend s o = (st, some p) →
          p.session_mode = s.mode
          ∧ (p.session_mode = .casual ∨ p.session_mode = .study ∨ p.session_mode = .research))
    ∧ initChatState.mode = .casual
    ∧ (∀ s : ChatState, s.sessionId = none → s.messages = [] →
        (effectModeDialog s).modeDialogOpen = true)
    ∧ (∀ (s : ChatState) (m : Mode), (selectMode s m).mode = m)
    ∧ (∀ (s : ChatState) (m : Mode) (o : QueryOutcome) (st : ChatState) (p : QueryPayload),
        handleSend (selectMode s m) o = (st, some p) → p.session_mode = m)
    ∧ (∀ s : ChatState, (newChat s).mode = s.mode ∧ (newChat s).modeDialogOpen = true) := by
  have hmode : ∀ (s : ChatState) (o : QueryOutcome) (st : ChatState) (p : QueryPayload),
      handleSend s o = (st, some p) → p.session_mode = s.mode := by
    intro s o st p h
    unfold handleSend at h
    split at h
    · simp at h
    · cases o with
      | success answer citations respSession =>
        simp only [Prod.mk.injEq, Option.some.injEq] at h
        rw [← h.2]
      | failure =>
        simp only [Prod.mk.injEq, Option.some.injEq] at h
        rw [← h.2]
  refine ⟨?_, rfl, ?_, ?_, ?_, ?_⟩
  · intro s o st p h
    refine ⟨hmode s o st p h, ?_⟩
    cases hm : (p.session_mode) with
    | casual => exact Or.inl rfl
    | study => exact Or.inr (Or.inl rfl)
    | research => exact Or.inr (Or.inr rfl)
  · intro s h1 h2
    unfold effectModeDialog
    rw [if_pos ⟨h1, h2⟩]
  · intro s m; rfl
  · intro s m o st p h
    exact hmode _ o st p h
  · intro s
    constructor
    · unfold newChat effectModeDialog
      split <;> rfl
    · unfold newChat effectModeDialog
      rw [if_pos ⟨rfl, rfl⟩]

theorem sessionMode_policy_witness :
    ((handleSend (setInput (selectMode initChatState .research) "q".data) .failure).2
        = some { query := "q".data, session_id := none, top_k := 15,
                 session_mode := .research })
    ∧ (effectModeDialog initChatState).modeDialogOpen = true := by
  refine ⟨?_, sessionMode_policy.2.2.1 initChatState rfl rfl⟩
  have h := sessionMode_policy.1 (setInput (selectMode initChatState .research) "q".data)
    .failure
    (handleSend (setInput (selectMode initChatState .research) "q".data) .failure).1
    { query := "q".data, session_id := none, top_k := 15, session_mode := .research }
    (by decide)
  decide

/-! ## C8 — upload guard
(`FileUploadDialog.handleUpload` in SessionModeDialog.tsx and
`Documents.handleUpload` in src/unnamed/part_004) -/

inductive CollType where
  | main
  | isolated
deriving DecidableEq

/-- One selected `File` (only the metadata the handlers look at). -/
structure FileMeta where
  name : List Char
  size : Nat
deriving DecidableEq

/-- Shared shape of the upload-related component state. -/
structure UploadState where
  files : List FileMeta
  collectionType : CollType
  collectionName : List Char
  uploading : Bool
deriving DecidableEq

/-- The request body of `documentsAPI.upload`. -/
structure UploadRequest where
  files : List FileMeta
  collection_type : CollType
  collection_name : Option (List Char)
deriving DecidableEq

inductive UploadOutcome where
  | success
  | failure
deriving DecidableEq

def uploadRequestOf (s : UploadState) : UploadRequest :=
  { files := s.files,
    collection_type := s.collectionType,
    collection_name :=
      if s.collectionType = .isolated then some s.collectionName else none }

/-- `FileUploadDialog.handleUpload`: guards (no files; isolated with blank
name) return without any transport call; otherwise `documentsAPI.upload` is
issued and, on success, the state is reset, while on failure the selected
files stay. -/
def dialogHandleUpload (s : UploadState) (o : UploadOutcome) :
    UploadState × Option UploadRequest :=
  if s.files = [] then (s, none)
  else if s.collectionType = .isolated ∧ jsTrim s.collectionName = [] then (s, none)
  else
    match o with
    | .success =>
      ({ files := [], collectionType := .main, collectionName := [], uploading := false },
        some (uploadRequestOf s))
    | .failure => ({ s with uploading := false }, some (uploadRequestOf s))

/-- `Documents.handleUpload` (part_004): same guards; the `finally` block
resets the selection whatever the outcome. -/
def documentsHandleUpload (s : UploadState) (o : UploadOutcome) :
    UploadState × Option UploadRequest :=
  if s.files = [] then (s, none)
  else if s.collectionType = .isolated ∧ jsTrim s.collectionName = [] then (s, none)
  else
    match o with
    | _ =>
      ({ files := [], collectionType := .main, collectionName := [], uploading := false },
        some (uploadRequestOf s))

/-- C8: an isolated-collection upload with a blank (whitespace-only) name is
rejected before any transport call — no `documentsAPI.upload` request is
issued and the state, selected files included, is unchanged — in both upload
handlers; and whenever either handler does issue a request for an isolated
collection, the trimmed collection name is non-blank and is the one sent. -/
theorem upload_blank_isolated_rejected :
    (∀ (s : UploadState) (o : UploadOutcome),
        s.collectionType = .isolated → jsTrim s.collectionName = [] →
          dialogHandleUpload s o = (s, none) ∧ documentsHandleUpload s o = (s, none))
    ∧ (∀ (s : UploadState) (o : UploadOutcome) (st : UploadState) (r : UploadRequest),
        dialogHandleUpload s o = (st, some r) ∨ documentsHandleUpload s o = (st, some r) →
          r.collection_type = s.collectionType
          ∧ (s.collectionType = .isolated →
              jsTrim s.collectionName ≠ [] ∧ r.collection_name = some s.collectionName)) := by
  constructor
  · intro s o hiso hblank
    constructor
    · unfold dialogHandleUpload
      split
      · rfl
      · rw [if_pos ⟨hiso, hblank⟩]
    · unfold documentsHandleUpload
      split
      · rfl
      · rw [if_pos ⟨hiso, hblank⟩]
  · intro s o st r h
    have hr : r = uploadRequestOf s ∧ ¬(s.collectionType = .isolated ∧ jsTrim s.collectionName = []) := by
      rcases h with h | h
      · unfold dialogHandleUpload at h
        split at h
        · simp at h
        · split at h
          · simp at h
          · rename_i hguard
            refine ⟨?_, hguard⟩
            cases o <;> simp_all
      · unfold documentsHandleUpload at h
        split at h
        · simp at h
        · split at h
          · simp at h
          · rename_i hguard
            refine ⟨?_, hguard⟩
            simp_all
    obtain ⟨hreq, hguard⟩ := hr
    subst hreq
    refine ⟨rfl, fun hiso => ⟨fun hblank => hguard ⟨hiso, hblank⟩, ?_⟩⟩
    unfold uploadRequestOf
    simp [hiso]

theorem upload_blank_isolated_rejected_witness :
    (dialogHandleUpload
        { files := [{ name := "a.pdf".data, size := 3 }],
          collectionType := .isolated, collectionName := "  ".data, uploading := false }
        .success
      = ({ files := [{ name := "a.pdf".data, size := 3 }],
           collectionType := .isolated, collectionName := "  ".data, uploading := false },
         none))
    ∧ (documentsHandleUpload
        { files := [{ name := "a.pdf".data, size := 3 }],
          collectionType := .isolated, collectionName := "  ".data, uploading := false }
        .success
      = ({ files := [{ name := "a.pdf".data, size := 3 }],
           collectionType := .isolated, collectionName := "  ".data, uploading := false },
         none)) :=
  upload_blank_isolated_rejected.1
    { files := [{ name := "a.pdf".data, size := 3 }],
      collectionType := .isolated, collectionName := "  ".data, uploading := false }
    .success rfl (by decide)

/-! ## C6 — Relevance Gate (spec §4.5; backend, not present under src/) -/

/-- The four routing decisions of the Relevance Gate. -/
inductive RoutingDecision where
  | NO_CORPUS
  | RAG_ONLY
  | RAG_PLUS_WEB
  | WEB_ONLY
deriving DecidableEq

namespace RelevanceGate

/-- Modelled from the spec: the Relevance Gate implementation is backend code
absent from `src/` (only the frontend is available), so `decide` is modelled
from §4.5: with no completed documents the decision is `NO_CORPUS`; otherwise
the top retrieval score is classified against a fixed threshold — at or above
it `RAG_ONLY`; below it, `casual` and `research` get `RAG_PLUS_WEB` while
`study` stays `RAG_ONLY` (the mode-dependent override).  The corpus state is
summarised by whether the user has completed documents plus the deterministic
top retrieval score the corpus yields for the query. -/
structure CorpusState where
  hasCompletedDocs : Bool
  topScore : ℚ
deriving DecidableEq

/-- Modelled from the spec: the similarity threshold of §4.5 (a fixed
deterministic constant; its exact value is provider tuning, not behaviour
the claims depend on). -/
def relevanceThreshold : ℚ := 7 / 10

/-- Modelled from the spec: `decide(query, user_has_documents) ->
RoutingDecision`, the deterministic threshold-plus-mode-override policy of
§4.5.  The query influences the decision only through the retrieval score
recorded in the corpus state. -/
def decide (query : List Char) (corpus : CorpusState) (mode : Mode) : RoutingDecision :=
  if corpus.hasCompletedDocs = false then .NO_CORPUS
  else if relevanceThreshold ≤ corpus.topScore then .RAG_ONLY
  else
    match mode with
    | .casual => .RAG_PLUS_WEB
    | .research => .RAG_PLUS_WEB
    | .study => .RAG_ONLY

end RelevanceGate

/-- C6: the Relevance Gate is deterministic — a pure function of
(query, corpus-state, mode), so two runs on identical inputs give the same
decision — and it is total over the four decision values: there is no
"unknown" outcome. -/
theorem relevanceGate_deterministic_total
    (query : List Char) (corpus : RelevanceGate.CorpusState) (mode : Mode) :
    RelevanceGate.decide query corpus mode = RelevanceGate.decide query corpus mode
    ∧ (RelevanceGate.decide query corpus mode = .NO_CORPUS
      ∨ RelevanceGate.decide query corpus mode = .RAG_ONLY
      ∨ RelevanceGate.decide query corpus mode = .RAG_PLUS_WEB
      ∨ RelevanceGate.decide query corpus mode = .WEB_ONLY) := by
  refine ⟨rfl, ?_⟩
  cases h : RelevanceGate.decide query corpus mode with
  | NO_CORPUS => exact Or.inl rfl
  | RAG_ONLY => exact Or.inr (Or.inl rfl)
  | RAG_PLUS_WEB => exact Or.inr (Or.inr (Or.inl rfl))
  | WEB_ONLY => exact Or.inr (Or.inr (Or.inr rfl))

/-! ## Flashcard extraction (ChatMessage in SessionModeDialog.tsx)

`hasFlashcards` checks both markers with `includes`;
`displayContent` is `content.replace(/FLASHCARD_START[\s\S]*?FLASHCARD_END/g, '').trim()`.
The global lazy replace is realised as: find the leftmost `FLASHCARD_START`;
pair it with the next `FLASHCARD_END` after it (lazy middle); delete the
block; continue after it.  If the leftmost `FLASHCARD_START` has no
`FLASHCARD_END` after it then no later start position can match either
(no occurrence of either marker can begin strictly inside the literal
`FLASHCARD_START`), so the scan stops. -/

def FCSTART : List Char := "FLASHCARD_START".data

def FCEND : List Char := "FLASHCARD_END".data

/-- One pass of the global lazy replace, with fuel for structural recursion
(any fuel at least the string length is enough, see `stripGo_eq_stripGo`). -/
def stripGo : Nat → List Char → List Char
  | 0, s => s
  | fuel + 1, s =>
    match splitFirst FCSTART s with
    | none => s
    | some (a, b) =>
      match splitFirst FCEND b with
      | none => s
      | some (_, c) => a ++ stripGo fuel c

/-- `content.replace(/FLASHCARD_START[\s\S]*?FLASHCARD_END/g, '')`. -/
def stripFlashcards (s : List Char) : List Char := stripGo s.length s

/-- The list of blocks matched (and removed) by the same global scan. -/
def extractGo : Nat → List Char → List (List Char)
  | 0, _ => []
  | fuel + 1, s =>
    match splitFirst FCSTART s with
    | none => []
    | some (_, b) =>
      match splitFirst FCEND b with
      | none => []
      | some (m, c) => (FCSTART ++ m ++ FCEND) :: extractGo fuel c

/-- The matched flashcard blocks of a content string, in scan order. -/
def extractedBlocks (s : List Char) : List (List Char) := extractGo s.length s

/-- `hasFlashcards` in `ChatMessage`: both markers present (`includes` is
order-insensitive). -/
def hasFlashcards (content : List Char) : Bool :=
  containsSub FCSTART content && containsSub FCEND content

/-- `displayContent` in `ChatMessage`: markers stripped, then trimmed. -/
def displayContent (content : List Char) : List Char :=
  jsTrim (stripFlashcards content)

/-- `{hasFlashcards && sessionId && <FlashcardViewer …/>}`: the viewer is
mounted iff both markers occur and a session id is present. -/
def flashcardViewerShown (content : List Char) (sessionId : Option Nat) : Bool :=
  hasFlashcards content && sessionId.isSome

theorem stripGo_nil (fuel : Nat) : stripGo fuel [] = [] := by
  cases fuel with
  | zero => rfl
  | succ f =>
    simp only [stripGo]
    have : splitFirst FCSTART [] = none := by decide
    rw [this]

theorem splitFirst_some_length {pat s a b : List Char}
    (h : splitFirst pat s = some (a, b)) : s.length = a.length + pat.length + b.length := by
  have := splitFirst_some pat s a b h
  subst this
  simp [List.length_append]
  omega

theorem stripGo_eq_stripGo :
    ∀ (f1 f2 : Nat) (s : List Char), s.length ≤ f1 → s.length ≤ f2 →
      stripGo f1 s = stripGo f2 s := by
  intro f1
  induction f1 with
  | zero =>
    intro f2 s h1 _
    have : s = [] := List.length_eq_zero.mp (Nat.le_zero.mp h1)
    subst this
    rw [stripGo_nil, stripGo_nil]
  | succ f ih =>
    intro f2 s h1 h2
    cases f2 with
    | zero =>
      have : s = [] := List.length_eq_zero.mp (Nat.le_zero.mp h2)
      subst this
      rw [stripGo_nil, stripGo_nil]
    | succ g =>
      cases hs : splitFirst FCSTART s with
      | none => simp only [stripGo, hs]
      | some ab =>
        obtain ⟨a, b⟩ := ab
        cases he : splitFirst FCEND b with
        | none => simp only [stripGo, hs, he]
        | some mc =>
          obtain ⟨m, c⟩ := mc
          have hsl := splitFirst_some_length hs
          have hel := splitFirst_some_length he
          have hST : FCSTART.length = 15 := by decide
          have hEN : FCEND.length = 13 := by decide
          simp only [stripGo, hs, he]
          rw [ih g c (by omega) (by omega)]

theorem stripFlashcards_nil : stripFlashcards [] = [] := stripGo_nil 0

/-- A pattern with no nontrivial border: no proper nonempty prefix of `pat`
is also a suffix, so an occurrence of `pat` cannot begin strictly inside
another occurrence. -/
def borderFree (pat : List Char) : Prop :=
  ∀ j, j < pat.length → 0 < j → pat.drop j ≠ pat.take (pat.length - j)

instance (pat : List Char) : Decidable (borderFree pat) :=
  inferInstanceAs (Decidable (∀ j, j < pat.length → 0 < j → _))

theorem splitFirst_of_leadsWith {pat s : List Char} (h : leadsWith pat s = true) :
    splitFirst pat s = some ([], s.drop pat.length) := by
  cases s with
  | nil =>
    cases pat with
    | nil => rfl
    | cons p ps => simp [leadsWith] at h
  | cons c cs => simp only [splitFirst, h, if_true]

theorem splitFirst_cons_of_not {pat : List Char} {c : Char} {cs : List Char}
    (h : leadsWith pat (c :: cs) = false) :
    splitFirst pat (c :: cs)
      = match splitFirst pat cs with
        | some (a, b) => some (c :: a, b)
        | none => none := by
  simp only [splitFirst, h, Bool.false_eq_true, if_false]

theorem leadsWith_append_of_length_le (pat : List Char) :
    ∀ (b r : List Char), pat.length ≤ b.length →
      leadsWith pat (b ++ r) = leadsWith pat b := by
  induction pat with
  | nil => intro b r _; simp [leadsWith]
  | cons p ps ih =>
    intro b r hlen
    cases b with
    | nil => simp at hlen
    | cons c cs =>
      show (p == c && leadsWith ps (cs ++ r)) = (p == c && leadsWith ps cs)
      have := ih cs r (by simpa using Nat.succ_le_succ_iff.mp hlen)
      rw [this]

theorem leadsWith_mid_false {pat : List Char} (hbf : borderFree pat)
    (b r : List Char) (hpos : 0 < b.length) (hlt : b.length < pat.length) :
    leadsWith pat (b ++ pat ++ r) = false := by
  by_contra h
  have h' : List.take pat.length (b ++ pat ++ r) = pat := by
    rw [← leadsWith_iff_take]
    cases hb : leadsWith pat (b ++ pat ++ r) with
    | true => rfl
    | false => exact absurd hb h
  rw [List.append_assoc] at h'
  have h2 : List.take pat.length (b ++ (pat ++ r))
      = b ++ List.take (pat.length - b.length) pat := by
    rw [List.take_append_eq_append_take, List.take_of_length_le (le_of_lt hlt),
      List.take_append_of_le_length (by omega)]
  rw [h2] at h'
  have h3 : pat.drop b.length = List.take (pat.length - b.length) pat := by
    conv_lhs => rw [← h']
    exact List.drop_left b _
  exact hbf b.length hlt hpos h3

theorem splitFirst_mark_left {pat : List Char} (hbf : borderFree pat) :
    ∀ (a r : List Char), splitFirst pat a = none →
      splitFirst pat (a ++ pat ++ r) = some (a, r) := by
  intro a
  induction a with
  | nil =>
    intro r _
    show splitFirst pat (pat ++ r) = some ([], r)
    rw [splitFirst_of_leadsWith (leadsWith_append_self pat r)]
    rw [List.drop_left]
  | cons c cs ih =>
    intro r hnone
    have hcons : leadsWith pat (c :: cs) = false ∧ splitFirst pat cs = none := by
      simp only [splitFirst] at hnone
      constructor
      · by_contra h
        have hx : leadsWith pat (c :: cs) = true := by
          cases hb : leadsWith pat (c :: cs) with
          | true => rfl
          | false => exact absurd hb h
        rw [if_pos hx] at hnone
        simp at hnone
      · split at hnone
        · simp at hnone
        · cases hsp : splitFirst pat cs with
          | none => rfl
          | some ab => rw [hsp] at hnone; obtain ⟨a', b'⟩ := ab; simp at hnone
    obtain ⟨hl, hrest⟩ := hcons
    have hlead : leadsWith pat ((c :: cs) ++ pat ++ r) = false := by
      by_cases hlen : pat.length ≤ (c :: cs).length
      · rw [List.append_assoc, leadsWith_append_of_length_le pat (c :: cs) (pat ++ r) hlen]
        exact hl
      · exact leadsWith_mid_false hbf (c :: cs) r (by simp) (by omega)
    have hlead' : leadsWith pat (c :: (cs ++ pat ++ r)) = false := hlead
    show splitFirst pat (c :: (cs ++ pat ++ r)) = some (c :: cs, r)
    rw [splitFirst_cons_of_not hlead', ih r hrest]

theorem stripGo_of_no_start {s : List Char} (h : splitFirst FCSTART s = none) :
    ∀ fuel, stripGo fuel s = s := by
  intro fuel
  cases fuel with
  | zero => rfl
  | succ f => simp only [stripGo, h]

theorem stripGo_of_no_end {s a b : List Char} (hs : splitFirst FCSTART s = some (a, b))
    (hb : splitFirst FCEND b = none) : ∀ fuel, stripGo fuel s = s := by
  intro fuel
  cases fuel with
  | zero => rfl
  | succ f => simp only [stripGo, hs, hb]

theorem extractGo_of_no_start {s : List Char} (h : splitFirst FCSTART s = none) :
    ∀ fuel, extractGo fuel s = [] := by
  intro fuel
  cases fuel with
  | zero => rfl
  | succ f => simp only [extractGo, h]

theorem extractGo_of_no_end {s a b : List Char} (hs : splitFirst FCSTART s = some (a, b))
    (hb : splitFirst FCEND b = none) : ∀ fuel, extractGo fuel s = [] := by
  intro fuel
  cases fuel with
  | zero => rfl
  | succ f => simp only [extractGo, hs, hb]

theorem stripGo_step {s a b m c : List Char} (hs : splitFirst FCSTART s = some (a, b))
    (hb : splitFirst FCEND b = some (m, c)) (f : Nat) :
    stripGo (f + 1) s = a ++ stripGo f c := by
  simp only [stripGo, hs, hb]

/-- Core of C2: the leftmost `FLASHCARD_START` (prefix `a` start-free) paired
with the next `FLASHCARD_END` (lazy middle `m` end-free) is deleted, and the
scan continues after it. -/
theorem stripFlashcards_block (a m c : List Char)
    (ha : splitFirst FCSTART a = none) (hm : splitFirst FCEND m = none) :
    stripFlashcards (a ++ FCSTART ++ m ++ FCEND ++ c) = a ++ stripFlashcards c := by
  have hbfS : borderFree FCSTART := by decide
  have hbfE : borderFree FCEND := by decide
  have h1 : splitFirst FCSTART (a ++ FCSTART ++ (m ++ FCEND ++ c))
      = some (a, m ++ FCEND ++ c) :=
    splitFirst_mark_left hbfS a (m ++ FCEND ++ c) ha
  have h2 : splitFirst FCEND (m ++ FCEND ++ c) = some (m, c) :=
    splitFirst_mark_left hbfE m c hm
  have hX : a ++ FCSTART ++ m ++ FCEND ++ c = a ++ FCSTART ++ (m ++ FCEND ++ c) := by
    simp [List.append_assoc]
  unfold stripFlashcards
  rw [hX]
  have hS : FCSTART.length = 15 := by decide
  have hE : FCEND.length = 13 := by decide
  have hlen : (a ++ FCSTART ++ (m ++ FCEND ++ c)).length
      = (a.length + m.length + c.length + 27) + 1 := by
    simp only [List.length_append]
    omega
  rw [hlen, stripGo_step h1 h2]
  rw [stripGo_eq_stripGo (a.length + m.length + c.length + 27) c.length c (by omega)
    (le_refl _)]

/-- C2 counterexample: the shown text is additionally trimmed, so it is not
always equal to the content with the delimited block removed — here removal
leaves a leading space that the display drops. -/
theorem displayContent_trim_cex :
    stripFlashcards "FLASHCARD_STARTxFLASHCARD_END hi".data = " hi".data
    ∧ displayContent "FLASHCARD_STARTxFLASHCARD_END hi".data = "hi".data
    ∧ displayContent "FLASHCARD_STARTxFLASHCARD_END hi".data
        ≠ stripFlashcards "FLASHCARD_STARTxFLASHCARD_END hi".data := by
  refine ⟨by decide, by decide, by decide⟩

/-- C2 (amended): for content holding well-formed delimited blocks — written
as a start-marker-free prefix `a`, the lazily matched block, and a remainder
`c` scanned the same way — the displayed text is the content with every such
block removed, then trimmed of surrounding whitespace; in particular no
stripped block survives into the display. -/
theorem displayContent_strips_blocks (a m c : List Char)
    (ha : splitFirst FCSTART a = none) (hm : splitFirst FCEND m = none) :
    displayContent (a ++ FCSTART ++ m ++ FCEND ++ c) = jsTrim (a ++ stripFlashcards c) := by
  unfold displayContent
  rw [stripFlashcards_block a m c ha hm]

theorem displayContent_strips_blocks_witness :
    displayContent ("Answer. ".data ++ FCSTART ++ "Q: q | A: a".data ++ FCEND ++ "".data)
      = jsTrim ("Answer. ".data ++ stripFlashcards "".data)
    ∧ displayContent ("Answer. ".data ++ FCSTART ++ "Q: q | A: a".data ++ FCEND ++ "".data)
      = "Answer.".data := by
  refine ⟨displayContent_strips_blocks "Answer. ".data "Q: q | A: a".data "".data
    (by decide) (by decide), by decide⟩

/-- The global lazy scan finds no block: either there is no start marker at
all, or no end marker follows the leftmost start marker (in which case no
later start can be paired either). -/
def noBlock (content : List Char) : Bool :=
  match splitFirst FCSTART content with
  | none => true
  | some (_, b) => (splitFirst FCEND b).isNone

/-- C3 counterexample: with both markers present but mismatched
(`FLASHCARD_END` before `FLASHCARD_START`), no block is extracted, yet
`hasFlashcards` is order-insensitive, so the flashcard viewer is mounted —
contrary to the claim that no viewer is shown. -/
theorem mismatched_markers_viewer_cex :
    noBlock "FLASHCARD_END first FLASHCARD_START".data = true
    ∧ extractedBlocks "FLASHCARD_END first FLASHCARD_START".data = []
    ∧ hasFlashcards "FLASHCARD_END first FLASHCARD_START".data = true
    ∧ flashcardViewerShown "FLASHCARD_END first FLASHCARD_START".data (some 1) = true := by
  refine ⟨by decide, by decide, by decide, by decide⟩

/-- C3 (amended): for content in which no `FLASHCARD_START` is followed by a
`FLASHCARD_END` (mismatched or missing delimiters), the extracted block list
is empty and the displayed text is the original content, unmodified except
for trimming of surrounding whitespace; the viewer, however, is mounted iff
both markers occur anywhere in the content (order-insensitively) and a
session id is present. -/
theorem malformed_flashcards_degrade (content : List Char) (sid : Option Nat)
    (h : noBlock content = true) :
    extractedBlocks content = []
    ∧ displayContent content = jsTrim content
    ∧ flashcardViewerShown content sid
        = (containsSub FCSTART content && containsSub FCEND content && sid.isSome) := by
  unfold noBlock at h
  refine ⟨?_, ?_, rfl⟩
  · cases hs : splitFirst FCSTART content with
    | none => exact extractGo_of_no_start hs _
    | some ab =>
      obtain ⟨a, b⟩ := ab
      rw [hs] at h
      have h' : (splitFirst FCEND b).isNone = true := by simpa using h
      cases he : splitFirst FCEND b with
      | none => exact extractGo_of_no_end hs he _
      | some mc => rw [he] at h'; simp at h'
  · unfold displayContent stripFlashcards
    cases hs : splitFirst FCSTART content with
    | none => rw [stripGo_of_no_start hs]
    | some ab =>
      obtain ⟨a, b⟩ := ab
      rw [hs] at h
      have h' : (splitFirst FCEND b).isNone = true := by simpa using h
      cases he : splitFirst FCEND b with
      | none => rw [stripGo_of_no_end hs he]
      | some mc => rw [he] at h'; simp at h' 

theorem malformed_flashcards_degrade_witness :
    extractedBlocks "FLASHCARD_START question without end".data = []
    ∧ displayContent "FLASHCARD_START question without end".data
        = jsTrim "FLASHCARD_START question without end".data
    ∧ flashcardViewerShown "FLASHCARD_START question without end".data (some 2)
        = (containsSub FCSTART "FLASHCARD_START question without end".data
            && containsSub FCEND "FLASHCARD_START question without end".data
            && (some 2 : Option Nat).isSome) :=
  malformed_flashcards_degrade "FLASHCARD_START question without end".data (some 2) (by decide)

/-! ## C1 — citation extraction (the `p` renderer of `ChatMessage`)

A paragraph whose trimmed text starts with `Source:` (case sensitive) is
matched against `/Source:\s*\[([^\]]+\.pdf),\s*p\.(\d+)\]/i`; on a match the
paragraph is rendered as a single clickable citation whose file is capture 1
and whose page is `parseInt` of capture 2; otherwise it stays plain text.

The regex is realised as a scan for the leftmost start position at which the
pattern matches.  At a start position, `source:` is matched case
insensitively, `\s*` and `\d+` have unique splits (the following literal is
not in their character class), and the bracket content admits at most one
split `G ++ "," ++ ws ++ "p." ++ digits` (no character of the tail region can
be the final `f` of `.pdf`), so the greedy capture is found by one backward
parse of the maximal `[^\]]` run, which must be followed by `]`. -/

/-- Case-insensitive prefix match: consume `pat`, return the rest. -/
def ciLeads : List Char → List Char → Option (List Char)
  | [], s => some s
  | _ :: _, [] => none
  | p :: ps, c :: cs => if p.toLower == c.toLower then ciLeads ps cs else none

/-- `parseInt(digits, 10)` on a digit string. -/
def decimalValue (l : List Char) : Nat :=
  l.foldl (fun a c => a * 10 + (c.toNat - '0'.toNat)) 0

/-- Match `([^\]]+\.pdf),\s*p\.(\d+)` against the whole bracket content
`run` (which holds no `]`), by the unique backward parse: the digit suffix,
then `p.` (case insensitive), then whitespace, then the comma, leaving the
capture, which must end in `.pdf` (case insensitive) with at least one
character before it. -/
def parseRun (run : List Char) : Option (List Char × Nat) :=
  if (run.reverse.takeWhile Char.isDigit).isEmpty then none
  else
    match ciLeads ['.', 'p'] (run.reverse.dropWhile Char.isDigit) with
    | none => none
    | some r2 =>
      match r2.dropWhile isJsWs with
      | ',' :: gr =>
        if (ciLeads ['f', 'd', 'p', '.'] gr).isSome = true ∧ 5 ≤ gr.length
        then some (gr.reverse, decimalValue (run.reverse.takeWhile Char.isDigit).reverse)
        else none
      | _ => none

/-- Attempt the citation pattern at this start position: `source:` (ci),
`\s*`, `[`, then the bracket run, which must be followed by `]` and parse
as filename-comma-page. -/
def matchHere (s : List Char) : Option (List Char × Nat) :=
  match ciLeads "source:".data s with
  | none => none
  | some s1 =>
    match s1.dropWhile isJsWs with
    | '[' :: s3 =>
      match s3.dropWhile (fun c => !(c == ']')) with
      | ']' :: _ => parseRun (s3.takeWhile (fun c => !(c == ']')))
      | _ => none
    | _ => none

/-- `String.prototype.match`: the leftmost position where the pattern
matches, scanning start positions left to right. -/
def findCitation : List Char → Option (List Char × Nat)
  | [] => none
  | c :: cs =>
    match matchHere (c :: cs) with
    | some r => some r
    | none => findCitation cs

/-- The rendering of one markdown paragraph by the `p` component: either a
clickable citation link (whose visible text is the normalised
`Source: [file, p.page]` line) or plain text (possibly styled grey/italic
when it starts with `Source:` but does not match the pattern). -/
inductive RenderedPara where
  | citationLink (file : List Char) (page : Nat)
  | plain (text : List Char) (sourceStyled : Bool)
deriving DecidableEq

/-- The citations carried by a rendered paragraph: exactly one for a
citation link, none for plain text. -/
def citationsOfPara : RenderedPara → List (List Char × Nat)
  | .citationLink f p => [(f, p)]
  | .plain _ _ => []

/-- The visible text of a rendered paragraph. -/
def renderedParaText : RenderedPara → List Char
  | .citationLink f p => "Source: [".data ++ f ++ ", p.".data ++ (Nat.repr p).data ++ "]".data
  | .plain t _ => t

/-- The `p` component of `ChatMessage`: trim the paragraph, check the
`Source:` gate, then match the citation regex. -/
def processParagraph (para : List Char) : RenderedPara :=
  if leadsWith "Source:".data (jsTrim para) = true then
    match findCitation (jsTrim para) with
    | some (f, page) => .citationLink f page
    | none => .plain para true
  else .plain para false

theorem takeWhile_append_all {p : Char → Bool} :
    ∀ (l r : List Char), (∀ c ∈ l, p c = true) →
      List.takeWhile p (l ++ r) = l ++ List.takeWhile p r := by
  intro l
  induction l with
  | nil => intro r _; rfl
  | cons x xs ih =>
    intro r h
    have hx : p x = true := h x (by simp)
    show List.takeWhile p (x :: (xs ++ r)) = x :: (xs ++ List.takeWhile p r)
    rw [List.takeWhile_cons, hx, if_pos rfl, ih r (fun c hc => h c (by simp [hc]))]

theorem dropWhile_append_all {p : Char → Bool} :
    ∀ (l r : List Char), (∀ c ∈ l, p c = true) →
      List.dropWhile p (l ++ r) = List.dropWhile p r := by
  intro l
  induction l with
  | nil => intro r _; rfl
  | cons x xs ih =>
    intro r h
    have hx : p x = true := h x (by simp)
    show List.dropWhile p (x :: (xs ++ r)) = List.dropWhile p r
    rw [List.dropWhile_cons, hx, if_pos rfl, ih r (fun c hc => h c (by simp [hc]))]

theorem jsTrim_eq_self {l : List Char}
    (h1 : ∀ c, l.head? = some c → isJsWs c = false)
    (h2 : ∀ c, l.getLast? = some c → isJsWs c = false) : jsTrim l = l := by
  unfold jsTrim
  have e1 : l.dropWhile isJsWs = l := by
    cases l with
    | nil => rfl
    | cons x xs =>
      rw [List.dropWhile_cons, h1 x rfl]
      simp
  rw [e1]
  have e2 : l.reverse.dropWhile isJsWs = l.reverse := by
    cases hr : l.reverse with
    | nil => rfl
    | cons y ys =>
      rw [List.dropWhile_cons]
      have hy : l.getLast? = some y := by
        rw [← List.head?_reverse, hr]
        rfl
      rw [h2 y hy]
      simp
  rw [e2, List.reverse_reverse]

theorem findCitation_of_matchHere {s : List Char} {r : List Char × Nat}
    (hs : s ≠ []) (h : matchHere s = some r) : findCitation s = some r := by
  cases s with
  | nil => exact absurd rfl hs
  | cons c cs => simp only [findCitation, h]

theorem parseRun_spec (f ds : List Char)
    (hpdf : (ciLeads ['f', 'd', 'p', '.'] f.reverse).isSome = true)
    (hflen : 5 ≤ f.length)
    (hds : ds ≠ [])
    (hdig : ∀ c ∈ ds, c.isDigit = true) :
    parseRun (f ++ (',' :: ' ' :: 'p' :: '.' :: ds)) = some (f, decimalValue ds) := by
  have hrev : (f ++ (',' :: ' ' :: 'p' :: '.' :: ds)).reverse
      = ds.reverse ++ ('.' :: 'p' :: ' ' :: ',' :: f.reverse) := by
    simp [List.reverse_append, List.append_assoc]
  have hdigr : ∀ c ∈ ds.reverse, Char.isDigit c = true := by
    intro c hc
    exact hdig c (List.mem_reverse.mp hc)
  have htk : (f ++ (',' :: ' ' :: 'p' :: '.' :: ds)).reverse.takeWhile Char.isDigit
      = ds.reverse := by
    rw [hrev, takeWhile_append_all ds.reverse _ hdigr]
    have : List.takeWhile Char.isDigit ('.' :: 'p' :: ' ' :: ',' :: f.reverse) = [] := rfl
    rw [this, List.append_nil]
  have hdp : (f ++ (',' :: ' ' :: 'p' :: '.' :: ds)).reverse.dropWhile Char.isDigit
      = '.' :: 'p' :: ' ' :: ',' :: f.reverse := by
    rw [hrev, dropWhile_append_all ds.reverse _ hdigr]
    rfl
  have hne : ds.reverse.isEmpty = false := by
    cases hr : ds.reverse with
    | nil => exact absurd (by simpa using congrArg List.reverse hr) hds
    | cons y ys => rfl
  unfold parseRun
  rw [htk, hdp, if_neg (by rw [hne]; exact Bool.false_ne_true)]
  show (if (ciLeads ['f', 'd', 'p', '.'] f.reverse).isSome = true ∧ 5 ≤ f.reverse.length
        then some (f.reverse.reverse, decimalValue ds.reverse.reverse)
        else none)
      = some (f, decimalValue ds)
  rw [if_pos ⟨hpdf, by simpa using hflen⟩]
  simp

/-- C1 counterexample: the regex requires the filename to end in `.pdf`, so a
paragraph of the claimed form with filename `notes.txt` yields no Citation and
stays a bare (styled) line. -/
theorem citation_nonpdf_cex :
    processParagraph "Source: [notes.txt, p.4]".data
      = RenderedPara.plain "Source: [notes.txt, p.4]".data true
    ∧ citationsOfPara (processParagraph "Source: [notes.txt, p.4]".data) = [] := by
  refine ⟨by decide, by decide⟩

/-- C1 (amended): for a paragraph `Source: [<filename>, p.<digits>]` whose
filename ends in `.pdf` case-insensitively (with at least one character
before it) and contains no `]`, the renderer yields exactly one citation
whose file is the filename and whose page is the decimal value of the digit
string, displayed only in rendered-citation form (no bare text); and a
paragraph whose trimmed text does not start with `Source:` yields no
citation. -/
theorem citation_extraction :
    (∀ f ds : List Char,
      (∀ c ∈ f, (c == ']') = false) →
      (ciLeads ['f', 'd', 'p', '.'] f.reverse).isSome = true →
      5 ≤ f.length →
      ds ≠ [] →
      (∀ c ∈ ds, c.isDigit = true) →
        processParagraph ("Source: [".data ++ f ++ ", p.".data ++ ds ++ "]".data)
          = RenderedPara.citationLink f (decimalValue ds)
        ∧ citationsOfPara
            (processParagraph ("Source: [".data ++ f ++ ", p.".data ++ ds ++ "]".data))
          = [(f, decimalValue ds)])
    ∧ (∀ para : List Char, leadsWith "Source:".data (jsTrim para) = false →
        citationsOfPara (processParagraph para) = []) := by
  constructor
  · intro f ds hrb hpdf hflen hds hdig
    have hnb : ∀ c ∈ f, (fun c => !(c == ']')) c = true := by
      intro c hc
      show Bool.not (c == ']') = true
      rw [hrb c hc]
      rfl
    have hnbds : ∀ c ∈ ds, (fun c => !(c == ']')) c = true := by
      intro c hc
      show Bool.not (c == ']') = true
      cases hcb : (c == ']') with
      | false => rfl
      | true =>
        exfalso
        have hc' : c = ']' := beq_iff_eq.mp hcb
        subst hc'
        exact absurd (hdig _ hc) (by decide)
    have hassoc : "Source: [".data ++ f ++ ", p.".data ++ ds ++ "]".data
        = "Source: [".data ++ (f ++ (',' :: ' ' :: 'p' :: '.' :: (ds ++ [']']))) := by
      simp [List.append_assoc]
    have hshape : "Source: [".data ++ (f ++ (',' :: ' ' :: 'p' :: '.' :: (ds ++ [']'])))
        = ("Source: [".data ++ (f ++ (',' :: ' ' :: 'p' :: '.' :: ds))) ++ [']'] := by
      simp [List.append_assoc]
    have htrim : jsTrim ("Source: [".data ++ (f ++ (',' :: ' ' :: 'p' :: '.' :: (ds ++ [']']))))
        = "Source: [".data ++ (f ++ (',' :: ' ' :: 'p' :: '.' :: (ds ++ [']']))) := by
      refine jsTrim_eq_self ?_ ?_
      · intro c hc
        have h0 : ("Source: [".data
            ++ (f ++ ',' :: ' ' :: 'p' :: '.' :: (ds ++ [']']))).head? = some 'S' := rfl
        rw [h0] at hc
        have : c = 'S' := (Option.some.inj hc).symm
        subst this
        rfl
      · intro c hc
        rw [hshape, List.getLast?_concat] at hc
        have : c = ']' := (Option.some.inj hc).symm
        subst this
        rfl
    have hdropT : List.dropWhile (fun c => !(c == ']'))
        (f ++ (',' :: ' ' :: 'p' :: '.' :: (ds ++ [']']))) = [']'] := by
      rw [dropWhile_append_all f _ hnb]
      have e1 : List.dropWhile (fun c => !(c == ']')) (',' :: ' ' :: 'p' :: '.' :: (ds ++ [']']))
          = List.dropWhile (fun c => !(c == ']')) (ds ++ [']']) := rfl
      rw [e1, dropWhile_append_all ds _ hnbds]
      rfl
    have htakeT : List.takeWhile (fun c => !(c == ']'))
        (f ++ (',' :: ' ' :: 'p' :: '.' :: (ds ++ [']'])))
        = f ++ (',' :: ' ' :: 'p' :: '.' :: ds) := by
      rw [takeWhile_append_all f _ hnb]
      have e1 : List.takeWhile (fun c => !(c == ']')) (',' :: ' ' :: 'p' :: '.' :: (ds ++ [']']))
          = ',' :: ' ' :: 'p' :: '.' :: List.takeWhile (fun c => !(c == ']')) (ds ++ [']']) := rfl
      rw [e1, takeWhile_append_all ds _ hnbds]
      have e2 : List.takeWhile (fun c => !(c == ']')) [']'] = [] := rfl
      rw [e2, List.append_nil]
    have hmh : matchHere ("Source: [".data ++ (f ++ (',' :: ' ' :: 'p' :: '.' :: (ds ++ [']']))))
        = some (f, decimalValue ds) := by
      show (match List.dropWhile (fun c => !(c == ']'))
              (f ++ (',' :: ' ' :: 'p' :: '.' :: (ds ++ [']']))) with
            | ']' :: _ => parseRun (List.takeWhile (fun c => !(c == ']'))
                (f ++ (',' :: ' ' :: 'p' :: '.' :: (ds ++ [']']))))
            | _ => none)
          = some (f, decimalValue ds)
      rw [hdropT, htakeT]
      exact parseRun_spec f ds hpdf hflen hds hdig
    have hfc : findCitation ("Source: [".data ++ (f ++ (',' :: ' ' :: 'p' :: '.' :: (ds ++ [']']))))
        = some (f, decimalValue ds) :=
      findCitation_of_matchHere (by simp) hmh
    have hmain : processParagraph ("Source: [".data ++ f ++ ", p.".data ++ ds ++ "]".data)
        = RenderedPara.citationLink f (decimalValue ds) := by
      have hlead : leadsWith "Source:".data
          ("Source: [".data ++ (f ++ (',' :: ' ' :: 'p' :: '.' :: (ds ++ [']'])))) = true :=
        leadsWith_append_self "Source:".data
          (' ' :: '[' :: (f ++ (',' :: ' ' :: 'p' :: '.' :: (ds ++ [']']))))
      rw [hassoc]
      unfold processParagraph
      rw [htrim, if_pos hlead, hfc]
    exact ⟨hmain, by rw [hmain]; rfl⟩
  · intro para h
    unfold processParagraph
    rw [if_neg (by rw [h]; exact Bool.false_ne_true)]
    rfl

theorem citation_extraction_witness :
    (processParagraph ("Source: [".data ++ "report.pdf".data ++ ", p.".data
        ++ "4".data ++ "]".data)
      = RenderedPara.citationLink "report.pdf".data (decimalValue "4".data))
    ∧ citationsOfPara (processParagraph "The capital is Paris.".data) = [] := by
  refine ⟨(citation_extraction.1 "report.pdf".data "4".data (by decide) (by decide)
    (by decide) (by decide) (by decide)).1,
    citation_extraction.2 "The capital is Paris.".data (by decide)⟩
